import Mathlib

/-
Verification of the scenario tree, resolution engine, string utilities and
CLI layer of the test_scenarios_cpp repository, as a shallow embedding.

Sources embedded:
  - src/string_utils.cpp  (split, join, trim)
  - src/scenario.cpp      (ScenarioGroupImpl::find_scenario)
  - src/test_context.cpp  (join_name, list_scenarios_recursive, TestContext)
  - src/cli.cpp           (parse_cli_arguments, run_cli_app)

C++ strings are modelled as Lean String (with List Char views where the
source works through iterators); exceptions are modelled as Except with the
runtime_error message strings of the source; undefined behavior is modelled
as Option.none.
-/

set_option autoImplicit false

namespace string_utils

/-- std::string::find for a character range: the index of the first
occurrence of delimiter as a contiguous subrange of s at or after the start,
or none when there is no occurrence (std::string::npos). -/
def findSub (s delimiter : List Char) : Option Nat :=
  if delimiter.isPrefixOf s then some 0
  else
    match s with
    | [] => none
    | _ :: rest => (findSub rest delimiter).map (· + 1)

/-- The while loop of string_utils.cpp split, with the remaining suffix of
the input standing for pos_begin; one fuel unit per loop iteration.  With a
nonempty delimiter every iteration advances pos_begin by at least one
character, so length + 1 units of fuel always suffice (see splitList).  The
source loops forever on an empty delimiter (std::string::find finds "" at
every position); that case is unreachable in the repository, where the only
delimiter ever passed is ".", and exhausts the fuel here. -/
def splitListGo (delimiter : List Char) : Nat → List Char → List (List Char)
  | 0, _ => []
  | fuel + 1, s =>
    match findSub s delimiter with
    | none => [s]
    | some e => s.take e :: splitListGo delimiter fuel (s.drop (e + delimiter.length))

/-- string_utils.cpp split, on character lists. -/
def splitList (s delimiter : List Char) : List (List Char) :=
  splitListGo delimiter (s.length + 1) s

/-- string_utils.cpp split. -/
def split (str delimiter : String) : List String :=
  (splitList str.data delimiter.data).map String.mk

/-- string_utils.cpp join.  Faithful to the source: the loop appends
parts[i] and then the literal "." whenever i < parts.size() - 1; the
delimiter argument is never read (the separator "." is hardcoded). -/
def join (parts : List String) (delimiter : String) : String :=
  match parts with
  | [] => ""
  | [p] => p
  | p :: rest => p ++ "." ++ join rest delimiter

/-- Character-level view of the join loop, used only in proofs. -/
def joinListC : List (List Char) → List Char
  | [] => []
  | [p] => p
  | p :: rest => p ++ '.' :: joinListC rest

/-- std::isspace in the default C locale. -/
def isspace (c : Char) : Bool :=
  c = ' ' || c = '\t' || c = '\n' || c = '\x0b' || c = '\x0c' || c = '\r'

/-- std::find_if over a character range: the index of the first character
satisfying p, or the length of the range (the end iterator) when none does. -/
def findIfIdx (p : Char → Bool) : List Char → Nat
  | [] => 0
  | c :: rest => if p c then 0 else findIfIdx p rest + 1

/-- string_utils.cpp trim: left_pos is find_if from the left for the first
non-space character; right_pos is find_if from the right (on the reversed
range) converted back through .base(), i.e. one past the last non-space
character.  The constructor std::string(left_pos, right_pos) requires
left_pos ≤ right_pos to be a valid range; an invalid range (first past
last) is undefined behavior, modelled here as none. -/
def trim (str : String) : Option String :=
  let l := str.data
  let left_pos := findIfIdx (fun c => !isspace c) l
  let right_pos := l.length - findIfIdx (fun c => !isspace c) l.reverse
  if left_pos ≤ right_pos then
    some (String.mk ((l.drop left_pos).take (right_pos - left_pos)))
  else
    none

end string_utils

/-- A test scenario (scenario.hpp): a name and a run behavior taking the
optional input; a failure raised by the scenario is modelled as an error
message. -/
structure Scenario where
  name : String
  run : Option String → Except String Unit

/-- A scenario group tree node (ScenarioGroupImpl of scenario.cpp): a name,
an ordered list of direct scenarios and an ordered list of direct
subgroups. -/
inductive ScenarioGroup where
  | mk (name : String) (scenarios : List Scenario) (groups : List ScenarioGroup)

def ScenarioGroup.name : ScenarioGroup → String
  | .mk n _ _ => n

def ScenarioGroup.scenarios : ScenarioGroup → List Scenario
  | .mk _ s _ => s

def ScenarioGroup.groups : ScenarioGroup → List ScenarioGroup
  | .mk _ _ g => g

/-- The range-for over scenarios_ in ScenarioGroupImpl::find_scenario:
return the first scenario whose name equals the searched name. -/
def findScenarioIn : List Scenario → String → Option Scenario
  | [], _ => none
  | s :: rest, name => if s.name = name then some s else findScenarioIn rest name

mutual

/-- ScenarioGroupImpl::find_scenario (scenario.cpp lines 22-40): split the
name on "."; with a single segment scan the own scenario list for the first
name match; with several segments scan the own group list for the first
subgroup named like the first segment and recurse into it with the
remaining segments re-joined; otherwise return empty. -/
def ScenarioGroup.find_scenario : ScenarioGroup → String → Option Scenario
  | .mk _ scenarios groups, name =>
    let parts := string_utils.split name "."
    if parts.length = 1 then
      findScenarioIn scenarios name
    else
      findGroupIn groups parts

/-- The range-for over groups_ in the multi-segment branch of
ScenarioGroupImpl::find_scenario; parts.headD "" is split[0] (parts is
nonempty whenever this is reached). -/
def findGroupIn : List ScenarioGroup → List String → Option Scenario
  | [], _ => none
  | g :: gs, parts =>
    if g.name = parts.headD "" then
      g.find_scenario (string_utils.join (parts.drop 1) ".")
    else
      findGroupIn gs parts

end

/-- join_name of test_context.cpp. -/
def join_name (left right : String) : String :=
  if left ≠ "" then left ++ "." ++ right else right

mutual

/-- list_scenarios_recursive of test_context.cpp (lines 17-35): first the
flattened results of all subgroups in order, each with the prefix extended
by the subgroup name, then the own scenario names joined to the prefix. -/
def list_scenarios_recursive : ScenarioGroup → String → List String
  | .mk _ scenarios groups, pfx =>
    listGroupsRecursive groups pfx ++ scenarios.map (fun s => join_name pfx s.name)

/-- The range-for over groups in list_scenarios_recursive. -/
def listGroupsRecursive : List ScenarioGroup → String → List String
  | [], _ => []
  | g :: gs, pfx =>
    list_scenarios_recursive g (join_name pfx g.name) ++ listGroupsRecursive gs pfx

end

/-- TestContext (test_context.hpp): wraps the root group. -/
structure TestContext where
  root_group : ScenarioGroup

/-- An error escaping TestContext::run: either the runtime_error raised by
run itself when resolution fails, or a failure raised by the executed
scenario, carried unchanged. -/
inductive RunError where
  | notFound (msg : String)
  | scenarioRaised (msg : String)
deriving DecidableEq

/-- TestContext::run (test_context.cpp lines 40-48). -/
def TestContext.run (ctx : TestContext) (name : String) (input : Option String) :
    Except RunError Unit :=
  match ctx.root_group.find_scenario name with
  | none => .error (.notFound ("Scenario " ++ name ++ " not found"))
  | some s => (s.run input).mapError RunError.scenarioRaised

/-- TestContext::list_scenarios (test_context.cpp lines 50-52). -/
def TestContext.list_scenarios (ctx : TestContext) : List String :=
  list_scenarios_recursive ctx.root_group ""

/-- ScenarioArguments of cli.hpp. -/
structure ScenarioArguments where
  name : Option String
  input : Option String
deriving DecidableEq

/-- CliArguments of cli.hpp; value-initialized in parse_cli_arguments, so
the loop starts from none/none/false/false. -/
structure CliArguments where
  scenario_arguments : ScenarioArguments
  list_scenarios : Bool
  help : Bool
deriving DecidableEq

/-- The argument loop of parse_cli_arguments (cli.cpp lines 15-36): one
token at a time; -n or --name and -i or --input consume the next token as
value and fail when none exists; -l or --list-scenarios and -h or --help
set their flag; anything else fails. -/
def parseArgumentsLoop : CliArguments → List String → Except String CliArguments
  | acc, [] => .ok acc
  | acc, arg :: rest =>
    if arg = "-n" ∨ arg = "--name" then
      match rest with
      | value :: rest2 =>
        parseArgumentsLoop
          ⟨⟨some value, acc.scenario_arguments.input⟩, acc.list_scenarios, acc.help⟩ rest2
      | [] => .error "Failed to read name parameter"
    else if arg = "-i" ∨ arg = "--input" then
      match rest with
      | value :: rest2 =>
        parseArgumentsLoop
          ⟨⟨acc.scenario_arguments.name, some value⟩, acc.list_scenarios, acc.help⟩ rest2
      | [] => .error "Failed to read input parameter"
    else if arg = "-l" ∨ arg = "--list-scenarios" then
      parseArgumentsLoop ⟨acc.scenario_arguments, true, acc.help⟩ rest
    else if arg = "-h" ∨ arg = "--help" then
      parseArgumentsLoop ⟨acc.scenario_arguments, acc.list_scenarios, true⟩ rest
    else
      .error "Unknown argument provided"

/-- parse_cli_arguments (cli.cpp lines 9-39): the first raw argument (the
executable name) is skipped, then the token loop runs from the
value-initialized record. -/
def parse_cli_arguments (raw_arguments : List String) : Except String CliArguments :=
  parseArgumentsLoop ⟨⟨none, none⟩, false, false⟩ (raw_arguments.drop 1)

/-- The observable outcome of a successful run_cli_app call. -/
inductive CliOutcome where
  | helpShown
  | scenariosListed (names : List String)
  | scenarioRan
deriving DecidableEq

/-- An error escaping run_cli_app: a runtime_error raised in cli.cpp
itself (parse errors and the missing/empty name checks), or an error
propagated unchanged from TestContext::run. -/
inductive CliError where
  | cliError (msg : String)
  | contextError (e : RunError)
deriving DecidableEq

/-- run_cli_app (cli.cpp lines 41-73): parse, then dispatch in order on
help, list_scenarios, missing name, empty name, and finally delegate to
TestContext::run. -/
def run_cli_app (raw_arguments : List String) (test_context : TestContext) :
    Except CliError CliOutcome :=
  match parse_cli_arguments raw_arguments with
  | .error msg => .error (.cliError msg)
  | .ok cli_arguments =>
    if cli_arguments.help then
      .ok .helpShown
    else if cli_arguments.list_scenarios then
      .ok (.scenariosListed test_context.list_scenarios)
    else
      match cli_arguments.scenario_arguments.name with
      | none => .error (.cliError "Test scenario name must be provided")
      | some n =>
        if n = "" then
          .error (.cliError "Test scenario name must not be empty")
        else
          match test_context.run n cli_arguments.scenario_arguments.input with
          | .ok _ => .ok .scenarioRan
          | .error e => .error (.contextError e)

/-- The dotted-path lookup chain described by the specification: follow, for
each leading segment, the first direct subgroup with that name, and look the
final segment up among the direct scenarios of the group reached. -/
def chainFind : ScenarioGroup → List String → Option Scenario
  | _, [] => none
  | g, [s] => findScenarioIn g.scenarios s
  | g, s :: rest =>
    match g.groups.find? (fun sub => sub.name == s) with
    | some sub => chainFind sub rest
    | none => none

mutual

/-- The enumeration described by the specification: all scenarios of all
subgroups in order, each name dot-qualified by the chain of group names
below the current root, followed by the direct scenario names. -/
def listSpec : ScenarioGroup → List String
  | .mk _ scenarios groups => listSpecGroups groups ++ scenarios.map Scenario.name

/-- The subgroup part of listSpec. -/
def listSpecGroups : List ScenarioGroup → List String
  | [] => []
  | g :: gs => (listSpec g).map (fun s => g.name ++ "." ++ s) ++ listSpecGroups gs

end

mutual

/-- Data-model invariant of the specification: every group in the tree has
a non-empty name (checked on subgroups; the name of the root itself never
enters any qualified name). -/
def subgroupNamesNonempty : ScenarioGroup → Bool
  | .mk _ _ groups => subgroupNamesNonemptyList groups

/-- subgroupNamesNonempty over a subgroup list. -/
def subgroupNamesNonemptyList : List ScenarioGroup → Bool
  | [] => true
  | g :: gs => (g.name != "") && subgroupNamesNonempty g && subgroupNamesNonemptyList gs

end

/-- Fixture scenario mirroring tests/test_scenario.cpp init_group. -/
def inner_scenario : Scenario := ⟨"inner_scenario", fun _ => .ok ()⟩

/-- Fixture scenario mirroring tests/test_scenario.cpp init_group. -/
def outer_scenario : Scenario := ⟨"outer_scenario", fun _ => .ok ()⟩

/-- Fixture group mirroring tests/test_scenario.cpp init_group. -/
def inner_group : ScenarioGroup := .mk "inner_group" [inner_scenario] []

/-- Fixture group mirroring tests/test_scenario.cpp init_group. -/
def outer_group : ScenarioGroup := .mk "outer_group" [outer_scenario] [inner_group]

/-- Duplicate-name fixture: first sibling named dup. -/
def dup_first : Scenario := ⟨"dup", fun _ => .ok ()⟩

/-- Duplicate-name fixture: second sibling named dup, distinguishable by
its run behavior. -/
def dup_second : Scenario := ⟨"dup", fun _ => .error "second"⟩

namespace string_utils

theorem findSub_nil {delimiter : List Char} (h : delimiter ≠ []) :
    findSub [] delimiter = none := by
  cases delimiter with
  | nil => exact absurd rfl h
  | cons c rest => simp [findSub, List.isPrefixOf]

theorem findSub_ne_nil {s delimiter : List Char} {e : Nat} (hd : delimiter ≠ [])
    (h : findSub s delimiter = some e) : s ≠ [] := by
  intro hs
  rw [hs, findSub_nil hd] at h
  exact Option.noConfusion h

theorem findSub_dot_cons (c : Char) (s : List Char) :
    findSub (c :: s) ['.'] = if c = '.' then some 0 else (findSub s ['.']).map (· + 1) := by
  by_cases h : c = '.'
  · subst h
    simp [findSub, List.isPrefixOf]
  · have hp : (['.'].isPrefixOf (c :: s)) = false := by
      simp [List.isPrefixOf]
      intro he
      exact absurd he.symm h
    simp [findSub, hp, h]

theorem splitListGo_succ_none {s delimiter : List Char} {f : Nat}
    (h : findSub s delimiter = none) :
    splitListGo delimiter (f + 1) s = [s] := by
  rw [splitListGo, h]

theorem splitListGo_succ_some {s delimiter : List Char} {f e : Nat}
    (h : findSub s delimiter = some e) :
    splitListGo delimiter (f + 1) s
      = s.take e :: splitListGo delimiter f (s.drop (e + delimiter.length)) := by
  rw [splitListGo, h]

theorem splitListGo_congr : ∀ (f1 : Nat) (f2 : Nat) (s : List Char)
    (delimiter : List Char), delimiter ≠ [] →
    s.length < f1 → s.length < f2 →
    splitListGo delimiter f1 s = splitListGo delimiter f2 s := by
  intro f1
  induction f1 with
  | zero => intro f2 s d _ h1 _; exact absurd h1 (Nat.not_lt_zero _)
  | succ f1 ih =>
    intro f2 s d hd h1 h2
    cases f2 with
    | zero => exact absurd h2 (Nat.not_lt_zero _)
    | succ f2 =>
      cases hfind : findSub s d with
      | none => rw [splitListGo_succ_none hfind, splitListGo_succ_none hfind]
      | some e =>
        rw [splitListGo_succ_some hfind, splitListGo_succ_some hfind]
        have hs : s ≠ [] := findSub_ne_nil hd hfind
        have hs1 : 1 ≤ s.length := by
          cases s with
          | nil => exact absurd rfl hs
          | cons a t => simp
        have hd1 : 1 ≤ d.length := by
          cases d with
          | nil => exact absurd rfl hd
          | cons a t => simp
        have hlen : (s.drop (e + d.length)).length < s.length := by
          simp only [List.length_drop]
          omega
        rw [ih f2 (s.drop (e + d.length)) d hd (by omega) (by omega)]

theorem splitList_cons (c : Char) (s : List Char) :
    splitList (c :: s) ['.'] =
      if c = '.' then [] :: splitList s ['.']
      else
        match splitList s ['.'] with
        | p :: ps => (c :: p) :: ps
        | [] => [[c]] := by
  have hdl : (['.'] : List Char).length = 1 := rfl
  by_cases hc : c = '.'
  · subst hc
    have hfind : findSub ('.' :: s) ['.'] = some 0 := by
      rw [findSub_dot_cons]; simp
    simp only [splitList, List.length_cons, if_pos rfl]
    rw [splitListGo_succ_some hfind]
    simp [hdl]
  · simp only [splitList, List.length_cons, if_neg hc]
    cases hfind : findSub s ['.'] with
    | none =>
      have hfind2 : findSub (c :: s) ['.'] = none := by
        rw [findSub_dot_cons, if_neg hc, hfind]; rfl
      rw [splitListGo_succ_none hfind2, splitListGo_succ_none hfind]
    | some e =>
      have hfind2 : findSub (c :: s) ['.'] = some (e + 1) := by
        rw [findSub_dot_cons, if_neg hc, hfind]; rfl
      have hs : s ≠ [] := findSub_ne_nil (by simp) hfind
      have hs1 : 1 ≤ s.length := by
        cases s with
        | nil => exact absurd rfl hs
        | cons a t => simp
      rw [splitListGo_succ_some hfind2, splitListGo_succ_some hfind]
      simp only [hdl]
      have htake : (c :: s).take (e + 1) = c :: s.take e := by simp
      have hdrop : (c :: s).drop (e + 1 + 1) = s.drop (e + 1) := by
        simp [List.drop_succ_cons]
      rw [htake, hdrop]
      have hcongr : splitListGo ['.'] (s.length + 1) (s.drop (e + 1))
          = splitListGo ['.'] s.length (s.drop (e + 1)) := by
        apply splitListGo_congr _ _ _ _ (by simp)
        · simp only [List.length_drop]; omega
        · simp only [List.length_drop]; omega
      rw [hcongr]

theorem splitList_ne_nil (s : List Char) : splitList s ['.'] ≠ [] := by
  cases s with
  | nil => simp [splitList, splitListGo, findSub]
  | cons c s =>
    rw [splitList_cons]
    by_cases hc : c = '.'
    · simp [hc]
    · rw [if_neg hc]
      cases splitList s ['.'] with
      | nil => simp
      | cons p ps => simp

theorem mem_splitList_dot_free : ∀ (s : List Char) (p : List Char),
    p ∈ splitList s ['.'] → '.' ∉ p := by
  intro s
  induction s with
  | nil =>
    intro p hp
    simp [splitList, splitListGo, findSub] at hp
    simp [hp]
  | cons c s ih =>
    intro p hp
    rw [splitList_cons] at hp
    by_cases hc : c = '.'
    · rw [if_pos hc] at hp
      rcases List.mem_cons.mp hp with h | h
      · simp [h]
      · exact ih p h
    · rw [if_neg hc] at hp
      cases hsplit : splitList s ['.'] with
      | nil => exact absurd hsplit (splitList_ne_nil s)
      | cons q qs =>
        rw [hsplit] at hp
        rcases List.mem_cons.mp hp with h | h
        · subst h
          intro hmem
          rcases List.mem_cons.mp hmem with h | h
          · exact hc h.symm
          · exact ih q (by rw [hsplit]; exact List.mem_cons_self q qs) h
        · exact ih p (by rw [hsplit]; exact List.mem_cons_of_mem q h)

theorem splitList_dot_free : ∀ (s : List Char), '.' ∉ s → splitList s ['.'] = [s] := by
  intro s
  induction s with
  | nil => intro _; simp [splitList, splitListGo, findSub]
  | cons c s ih =>
    intro hnd
    have hc : c ≠ '.' := fun h => hnd (by simp [h])
    have hs : '.' ∉ s := fun h => hnd (List.mem_cons_of_mem c h)
    rw [splitList_cons, if_neg (fun h => hc h), ih hs]

theorem splitList_append_dot : ∀ (a b : List Char), '.' ∉ a →
    splitList (a ++ '.' :: b) ['.'] = a :: splitList b ['.'] := by
  intro a
  induction a with
  | nil =>
    intro b _
    simp only [List.nil_append]
    rw [splitList_cons, if_pos rfl]
  | cons c a ih =>
    intro b hnd
    have hc : c ≠ '.' := fun h => hnd (by simp [h])
    have ha : '.' ∉ a := fun h => hnd (List.mem_cons_of_mem c h)
    simp only [List.cons_append]
    rw [splitList_cons, if_neg (fun h => hc h), ih b ha]

theorem joinListC_cons_cons (c : Char) (p : List Char) (ps : List (List Char)) :
    joinListC ((c :: p) :: ps) = c :: joinListC (p :: ps) := by
  cases ps with
  | nil => rfl
  | cons q qs => rfl

theorem joinListC_splitList : ∀ (s : List Char), joinListC (splitList s ['.']) = s := by
  intro s
  induction s with
  | nil => rfl
  | cons c s ih =>
    rw [splitList_cons]
    by_cases hc : c = '.'
    · rw [if_pos hc]
      cases hsplit : splitList s ['.'] with
      | nil => exact absurd hsplit (splitList_ne_nil s)
      | cons q qs =>
        rw [hsplit] at ih
        subst hc
        simp [joinListC, ih]
    · rw [if_neg hc]
      cases hsplit : splitList s ['.'] with
      | nil => exact absurd hsplit (splitList_ne_nil s)
      | cons q qs =>
        rw [hsplit] at ih
        rw [joinListC_cons_cons, ih]

theorem join_data : ∀ (parts : List String) (d : String),
    (join parts d).data = joinListC (parts.map String.data) := by
  intro parts
  induction parts with
  | nil => intro d; rfl
  | cons p rest ih =>
    intro d
    cases rest with
    | nil => rfl
    | cons q rest2 =>
      show (p ++ "." ++ join (q :: rest2) d).data = _
      rw [String.data_append, String.data_append, ih d]
      show p.data ++ ['.'] ++ joinListC ((q :: rest2).map String.data)
        = joinListC (p.data :: (q :: rest2).map String.data)
      rw [List.append_assoc]
      rfl

theorem split_data (s : String) : split s "." = (splitList s.data ['.']).map String.mk := rfl

theorem split_ne_nil (s : String) : split s "." ≠ [] := by
  rw [split_data]
  intro h
  exact splitList_ne_nil s.data (List.map_eq_nil_iff.mp h)

theorem split_dot_free (s : String) (h : '.' ∉ s.data) : split s "." = [s] := by
  rw [split_data, splitList_dot_free s.data h]
  rfl

theorem mem_split_dot_free (s : String) (p : String) (hp : p ∈ split s ".") :
    '.' ∉ p.data := by
  rw [split_data] at hp
  rcases List.mem_map.mp hp with ⟨q, hq, hpq⟩
  have : p.data = q := by rw [← hpq]
  rw [this]
  exact mem_splitList_dot_free s.data q hq

theorem split_append_dot (a b : String) (h : '.' ∉ a.data) :
    split (a ++ "." ++ b) "." = a :: split b "." := by
  rw [split_data]
  have hdata : (a ++ "." ++ b).data = a.data ++ '.' :: b.data := by
    rw [String.data_append, String.data_append]
    show a.data ++ ['.'] ++ b.data = _
    rw [List.append_assoc]
    rfl
  rw [hdata, splitList_append_dot a.data b.data h]
  show String.mk a.data :: _ = _
  rfl

theorem join_split (s : String) : join (split s ".") "." = s := by
  apply String.ext
  rw [join_data, split_data, List.map_map]
  have : (String.data ∘ String.mk) = id := rfl
  rw [this, List.map_id]
  exact joinListC_splitList s.data

theorem split_join : ∀ (segs : List String), segs ≠ [] →
    (∀ p ∈ segs, '.' ∉ p.data) →
    split (join segs ".") "." = segs := by
  intro segs
  induction segs with
  | nil => intro h _; exact absurd rfl h
  | cons p rest ih =>
    intro _ hdf
    cases rest with
    | nil =>
      show split p "." = [p]
      exact split_dot_free p (hdf p (List.mem_cons_self p []))
    | cons q rest2 =>
      show split (p ++ "." ++ join (q :: rest2) ".") "." = _
      rw [split_append_dot _ _ (hdf p (List.mem_cons_self p _))]
      rw [ih (by simp) (fun x hx => hdf x (List.mem_cons_of_mem p hx))]

end string_utils

theorem find_scenario_single (nm : String) (scs : List Scenario)
    (gs : List ScenarioGroup) (path : String) (h : '.' ∉ path.data) :
    (ScenarioGroup.mk nm scs gs).find_scenario path = findScenarioIn scs path := by
  simp only [ScenarioGroup.find_scenario]
  rw [string_utils.split_dot_free path h]
  rfl

theorem find_scenario_multi (nm : String) (scs : List Scenario)
    (gs : List ScenarioGroup) (path : String)
    (h : (string_utils.split path ".").length ≠ 1) :
    (ScenarioGroup.mk nm scs gs).find_scenario path
      = findGroupIn gs (string_utils.split path ".") := by
  simp only [ScenarioGroup.find_scenario]
  rw [if_neg h]

theorem findScenarioIn_eq_find? : ∀ (scs : List Scenario) (name : String),
    findScenarioIn scs name = scs.find? (fun s => s.name == name) := by
  intro scs name
  induction scs with
  | nil => rfl
  | cons s rest ih =>
    simp only [findScenarioIn]
    by_cases h : s.name = name
    · rw [if_pos h, List.find?_cons_of_pos _ (by simp [h])]
    · rw [if_neg h, List.find?_cons_of_neg _ (by simp [h]), ih]

theorem findGroupIn_eq (s : String) (tail : List String) :
    ∀ gs, findGroupIn gs (s :: tail)
      = match gs.find? (fun g => g.name == s) with
        | some sub => sub.find_scenario (string_utils.join tail ".")
        | none => none := by
  intro gs
  induction gs with
  | nil => rfl
  | cons g gs ih =>
    simp only [findGroupIn, List.headD_cons, List.drop_succ_cons, List.drop_zero]
    by_cases h : g.name = s
    · rw [if_pos h, List.find?_cons_of_pos _ (by simp [h])]
    · rw [if_neg h, List.find?_cons_of_neg _ (by simp [h]), ih]

theorem chainFind_cons_cons (g : ScenarioGroup) (s q : String) (rest : List String) :
    chainFind g (s :: q :: rest)
      = match g.groups.find? (fun sub => sub.name == s) with
        | some sub => chainFind sub (q :: rest)
        | none => none := rfl

theorem find_scenario_join_eq_chainFind : ∀ (segs : List String) (g : ScenarioGroup),
    segs ≠ [] → (∀ p ∈ segs, '.' ∉ p.data) →
    g.find_scenario (string_utils.join segs ".") = chainFind g segs := by
  intro segs
  induction segs with
  | nil => intro g h _; exact absurd rfl h
  | cons s tail ih =>
    intro g _ hdf
    cases tail with
    | nil =>
      have hjoin : string_utils.join [s] "." = s := rfl
      rw [hjoin]
      cases g with
      | mk nm scs gs =>
        rw [find_scenario_single nm scs gs s (hdf s (by simp))]
        rfl
    | cons q rest =>
      have hjoin : string_utils.join (s :: q :: rest) "."
          = s ++ "." ++ string_utils.join (q :: rest) "." := rfl
      have hs : '.' ∉ s.data := hdf s (by simp)
      have htail_ne : (q :: rest) ≠ ([] : List String) := by simp
      have htail_df : ∀ p ∈ q :: rest, '.' ∉ p.data :=
        fun p hp => hdf p (List.mem_cons_of_mem s hp)
      have hsplit : string_utils.split (string_utils.join (s :: q :: rest) ".") "."
          = s :: q :: rest := by
        rw [hjoin, string_utils.split_append_dot _ _ hs,
          string_utils.split_join _ htail_ne htail_df]
      cases g with
      | mk nm scs gs =>
        rw [find_scenario_multi nm scs gs _ (by rw [hsplit]; simp)]
        rw [hsplit, findGroupIn_eq s (q :: rest) gs, chainFind_cons_cons]
        have hgroups : (ScenarioGroup.mk nm scs gs).groups = gs := rfl
        rw [hgroups]
        cases hfind : gs.find? (fun g => g.name == s) with
        | none => rfl
        | some sub =>
          show sub.find_scenario (string_utils.join (q :: rest) ".") = chainFind sub (q :: rest)
          exact ih sub htail_ne htail_df

/-- C1: for a dotted path with at least two segments, find_scenario on a
group equals the chain lookup of the specification: follow, for each
leading segment, the first direct subgroup with that name, and look the
final segment up among the direct scenarios of the group reached; a broken
link anywhere yields none; and the own scenario list of the group is never
consulted in this branch (no lookup of the full dotted string as a literal
scenario name), witnessed by the scenario list being replaceable by []. -/
theorem find_scenario_multi_segment_chain (g : ScenarioGroup) (path : String)
    (h2 : 2 ≤ (string_utils.split path ".").length) :
    g.find_scenario path = chainFind g (string_utils.split path ".")
      ∧ ∀ (nm : String) (scs : List Scenario) (gs : List ScenarioGroup),
          (ScenarioGroup.mk nm scs gs).find_scenario path
            = (ScenarioGroup.mk nm [] gs).find_scenario path := by
  constructor
  · have hne : string_utils.split path "." ≠ [] := string_utils.split_ne_nil path
    have hdf : ∀ p ∈ string_utils.split path ".", '.' ∉ p.data :=
      fun p hp => string_utils.mem_split_dot_free path p hp
    conv_lhs => rw [← string_utils.join_split path]
    exact find_scenario_join_eq_chainFind _ g hne hdf
  · intro nm scs gs
    have hlen : (string_utils.split path ".").length ≠ 1 := by omega
    rw [find_scenario_multi nm scs gs path hlen, find_scenario_multi nm [] gs path hlen]

/-- Witness for C1 at the fixture tree of tests/test_scenario.cpp. -/
theorem find_scenario_multi_segment_chain_witness :
    2 ≤ (string_utils.split "inner_group.inner_scenario" ".").length
      ∧ (outer_group.find_scenario "inner_group.inner_scenario"
            = chainFind outer_group (string_utils.split "inner_group.inner_scenario" ".")
          ∧ ∀ (nm : String) (scs : List Scenario) (gs : List ScenarioGroup),
              (ScenarioGroup.mk nm scs gs).find_scenario "inner_group.inner_scenario"
                = (ScenarioGroup.mk nm [] gs).find_scenario "inner_group.inner_scenario") :=
  ⟨by decide,
    find_scenario_multi_segment_chain outer_group "inner_group.inner_scenario" (by decide)⟩

theorem find?_scenario_first : ∀ (pre : List Scenario) (s1 : Scenario)
    (rest : List Scenario) (path : String), s1.name = path →
    (∀ s ∈ pre, s.name ≠ path) →
    (pre ++ s1 :: rest).find? (fun s => s.name == path) = some s1 := by
  intro pre
  induction pre with
  | nil =>
    intro s1 rest path h1 _
    simp only [List.nil_append]
    rw [List.find?_cons_of_pos _ (by simp [h1])]
  | cons s pre ih =>
    intro s1 rest path h1 hpre
    simp only [List.cons_append]
    rw [List.find?_cons_of_neg _ (by simp [hpre s (by simp)])]
    exact ih s1 rest path h1 (fun x hx => hpre x (List.mem_cons_of_mem s hx))

/-- C2: for a dot-free path (a single segment), find_scenario scans only
the own scenario list in insertion order (the first name match in
construction order is returned, none when nothing matches) and never
descends into the subgroups; in particular with duplicate sibling names
the earliest match wins. -/
theorem find_scenario_single_segment_first (nm : String) (scs : List Scenario)
    (gs : List ScenarioGroup) (path : String) (hdf : '.' ∉ path.data) :
    (ScenarioGroup.mk nm scs gs).find_scenario path
        = scs.find? (fun s => s.name == path)
      ∧ ∀ (pre mid post : List Scenario) (s1 s2 : Scenario),
          scs = pre ++ s1 :: (mid ++ s2 :: post) → s1.name = path →
          (∀ s ∈ pre, s.name ≠ path) →
          (ScenarioGroup.mk nm scs gs).find_scenario path = some s1 := by
  have h1 : (ScenarioGroup.mk nm scs gs).find_scenario path
      = scs.find? (fun s => s.name == path) := by
    rw [find_scenario_single nm scs gs path hdf, findScenarioIn_eq_find?]
  refine ⟨h1, ?_⟩
  intro pre mid post s1 s2 hscs hname hpre
  rw [h1, hscs]
  exact find?_scenario_first pre s1 (mid ++ s2 :: post) path hname hpre

/-- Witness for C2: with two sibling scenarios both named dup, the first
one in construction order is returned. -/
theorem find_scenario_single_segment_first_witness :
    ('.' ∉ ("dup" : String).data)
      ∧ (ScenarioGroup.mk "root" [dup_first, dup_second] []).find_scenario "dup"
          = some dup_first :=
  ⟨by decide, by
    rcases find_scenario_single_segment_first "root" [dup_first, dup_second] [] "dup"
      (by decide) with ⟨h1, h2⟩
    exact h2 [] [] [] dup_first dup_second rfl rfl (by simp)⟩

/-- C9: find_scenario of the empty string returns none on every tree of
the data model (no scenario is permitted an empty name; only the direct
scenarios of the called group are even consulted). -/
theorem find_scenario_empty_path (nm : String) (scs : List Scenario)
    (gs : List ScenarioGroup) (h : ∀ s ∈ scs, s.name ≠ "") :
    (ScenarioGroup.mk nm scs gs).find_scenario "" = none := by
  rw [find_scenario_single nm scs gs "" (by simp), findScenarioIn_eq_find?]
  refine List.find?_eq_none.mpr ?_
  intro s hs
  simp [h s hs]

/-- Witness for C9 at the fixture tree of tests/test_scenario.cpp. -/
theorem find_scenario_empty_path_witness :
    (∀ s ∈ [inner_scenario], s.name ≠ "")
      ∧ (ScenarioGroup.mk "inner_group" [inner_scenario] []).find_scenario "" = none :=
  ⟨by decide, find_scenario_empty_path "inner_group" [inner_scenario] [] (by decide)⟩

theorem ScenarioGroup.sizeOf_mem_lt {g : ScenarioGroup} {gs : List ScenarioGroup}
    (h : g ∈ gs) (nm : String) (scs : List Scenario) :
    sizeOf g < sizeOf (ScenarioGroup.mk nm scs gs) := by
  have h1 := List.sizeOf_lt_of_mem h
  simp only [ScenarioGroup.mk.sizeOf_spec]
  omega

/-- Induction over the nested scenario-group tree. -/
theorem ScenarioGroup.inductionOn (motive : ScenarioGroup → Prop)
    (h : ∀ (nm : String) (scs : List Scenario) (gs : List ScenarioGroup),
      (∀ g ∈ gs, motive g) → motive (.mk nm scs gs)) :
    ∀ g, motive g := by
  have key : ∀ (n : Nat) (g : ScenarioGroup), sizeOf g ≤ n → motive g := by
    intro n
    induction n with
    | zero =>
      intro g hg
      exfalso
      cases g with
      | mk nm scs gs =>
        rw [ScenarioGroup.mk.sizeOf_spec] at hg
        omega
    | succ n ih =>
      intro g hg
      cases g with
      | mk nm scs gs =>
        apply h
        intro g2 hg2
        apply ih
        have h1 := ScenarioGroup.sizeOf_mem_lt hg2 nm scs
        omega
  intro g
  exact key (sizeOf g) g (Nat.le_refl _)

theorem join_name_empty_left (r : String) : join_name "" r = r := by
  simp [join_name]

theorem append_dot_ne_empty (a b : String) : a ++ "." ++ b ≠ "" := by
  intro h
  have h2 := congrArg String.data h
  rw [String.data_append, String.data_append] at h2
  have hdot : ("." : String).data = ['.'] := rfl
  rw [hdot] at h2
  simp at h2

theorem join_name_assoc (pfx gname s : String) (h : gname ≠ "") :
    join_name (join_name pfx gname) s = join_name pfx (gname ++ "." ++ s) := by
  by_cases hp : pfx = ""
  · subst hp
    rw [join_name_empty_left, join_name_empty_left]
    simp only [join_name, if_pos h]
  · have h1 : join_name pfx gname = pfx ++ "." ++ gname := by
      simp only [join_name, if_pos hp]
    have h2 : pfx ++ "." ++ gname ≠ "" := append_dot_ne_empty pfx gname
    rw [h1]
    simp only [join_name, if_pos h2, if_pos hp]
    apply String.ext
    simp [String.data_append, List.append_assoc]

theorem subgroupNamesNonempty_mk (nm : String) (scs : List Scenario)
    (gs : List ScenarioGroup) :
    subgroupNamesNonempty (.mk nm scs gs) = subgroupNamesNonemptyList gs := rfl

theorem subgroupNamesNonemptyList_cons (g : ScenarioGroup) (gs : List ScenarioGroup) :
    subgroupNamesNonemptyList (g :: gs)
      = ((g.name != "") && subgroupNamesNonempty g && subgroupNamesNonemptyList gs) := rfl

theorem list_map_ext {α β : Type} (f g : α → β) : ∀ (l : List α),
    (∀ a ∈ l, f a = g a) → l.map f = l.map g := by
  intro l
  induction l with
  | nil => intro _; rfl
  | cons a l ih =>
    intro h
    simp only [List.map_cons]
    rw [h a (by simp), ih (fun x hx => h x (List.mem_cons_of_mem a hx))]

/-- The accumulator form of the source enumeration is the prefix image of
the compositional enumeration of the specification. -/
theorem list_scenarios_recursive_eq_listSpec : ∀ (g : ScenarioGroup),
    subgroupNamesNonempty g = true →
    ∀ pfx, list_scenarios_recursive g pfx = (listSpec g).map (join_name pfx) := by
  intro g
  induction g using ScenarioGroup.inductionOn with
  | h nm scs gs ih =>
    intro hok pfx
    rw [subgroupNamesNonempty_mk] at hok
    have haux : ∀ (gs2 : List ScenarioGroup), (∀ x ∈ gs2, x ∈ gs) →
        subgroupNamesNonemptyList gs2 = true →
        listGroupsRecursive gs2 pfx = (listSpecGroups gs2).map (join_name pfx) := by
      intro gs2
      induction gs2 with
      | nil => intro _ _; rfl
      | cons g2 rest ih2 =>
        intro hmem hok2
        rw [subgroupNamesNonemptyList_cons] at hok2
        simp only [Bool.and_eq_true, bne_iff_ne, ne_eq] at hok2
        obtain ⟨⟨hname, hg2ok⟩, hrestok⟩ := hok2
        have hmap := ih g2 (hmem g2 (by simp)) hg2ok (join_name pfx g2.name)
        show list_scenarios_recursive g2 (join_name pfx g2.name)
            ++ listGroupsRecursive rest pfx
          = ((listSpec g2).map (fun s => g2.name ++ "." ++ s)
              ++ listSpecGroups rest).map (join_name pfx)
        rw [List.map_append, hmap,
          ih2 (fun x hx => hmem x (List.mem_cons_of_mem g2 hx)) hrestok,
          List.map_map]
        congr 1
        refine list_map_ext _ _ _ ?_
        intro s _
        show join_name (join_name pfx g2.name) s = join_name pfx (g2.name ++ "." ++ s)
        exact join_name_assoc pfx g2.name s hname
    show listGroupsRecursive gs pfx ++ scs.map (fun s => join_name pfx s.name)
      = (listSpecGroups gs ++ scs.map Scenario.name).map (join_name pfx)
    rw [List.map_append, haux gs (fun x hx => hx) hok, List.map_map]
    rfl

/-- C3: list_scenarios is the depth-first enumeration that, per group,
first emits the scenarios of all subgroups in order under their
dot-qualified names (the chain of group names below the root, the root
name omitted) and only then the own direct scenario names; on the example
tree the result is exactly ["inner.inner_scenario", "outer_scenario"];
and on a childless group it is empty. -/
theorem list_scenarios_depth_first :
    (∀ nm : String, TestContext.list_scenarios ⟨.mk nm [] []⟩ = [])
      ∧ TestContext.list_scenarios
          ⟨.mk "root" [⟨"outer_scenario", fun _ => .ok ()⟩]
              [.mk "inner" [⟨"inner_scenario", fun _ => .ok ()⟩] []]⟩
          = ["inner.inner_scenario", "outer_scenario"]
      ∧ ∀ g : ScenarioGroup, subgroupNamesNonempty g = true →
          TestContext.list_scenarios ⟨g⟩ = listSpec g := by
  refine ⟨fun nm => rfl, by decide, ?_⟩
  intro g hok
  show list_scenarios_recursive g "" = listSpec g
  rw [list_scenarios_recursive_eq_listSpec g hok ""]
  rw [list_map_ext (join_name "") id _ (fun s _ => join_name_empty_left s), List.map_id]

/-- Witness for C3 at the fixture tree of tests/test_scenario.cpp. -/
theorem list_scenarios_depth_first_witness :
    subgroupNamesNonempty outer_group = true
      ∧ TestContext.list_scenarios ⟨outer_group⟩ = listSpec outer_group :=
  ⟨by decide, list_scenarios_depth_first.2.2 outer_group (by decide)⟩

theorem test_context_run_none (g : ScenarioGroup) (name : String)
    (input : Option String) (h : g.find_scenario name = none) :
    TestContext.run ⟨g⟩ name input
      = .error (.notFound ("Scenario " ++ name ++ " not found")) := by
  show (match g.find_scenario name with
    | none => Except.error (RunError.notFound ("Scenario " ++ name ++ " not found"))
    | some s => (s.run input).mapError RunError.scenarioRaised) = _
  rw [h]

theorem test_context_run_some (g : ScenarioGroup) (name : String)
    (input : Option String) (s : Scenario) (h : g.find_scenario name = some s) :
    TestContext.run ⟨g⟩ name input = (s.run input).mapError RunError.scenarioRaised := by
  show (match g.find_scenario name with
    | none => Except.error (RunError.notFound ("Scenario " ++ name ++ " not found"))
    | some s => (s.run input).mapError RunError.scenarioRaised) = _
  rw [h]

/-- C6: TestContext::run fails with the not-found runtime_error, whose
message contains the requested name verbatim, exactly when find_scenario
on the root group yields nothing; otherwise it invokes the resolved
scenario with the given input and propagates a failure the scenario raises
unchanged (only re-tagged as coming from the scenario, no message change,
no retry). -/
theorem test_context_run_spec (g : ScenarioGroup) (name : String)
    (input : Option String) :
    ((∃ m, TestContext.run ⟨g⟩ name input = .error (.notFound m)
        ∧ ∃ p q, m = p ++ name ++ q)
      ↔ g.find_scenario name = none)
    ∧ ∀ s, g.find_scenario name = some s →
        TestContext.run ⟨g⟩ name input = (s.run input).mapError RunError.scenarioRaised := by
  constructor
  · constructor
    · rintro ⟨m, hm, _⟩
      cases hfind : g.find_scenario name with
      | none => rfl
      | some s =>
        rw [test_context_run_some g name input s hfind] at hm
        cases hr : s.run input with
        | ok u => rw [hr] at hm; simp [Except.mapError] at hm
        | error e => rw [hr] at hm; simp [Except.mapError] at hm
    · intro hfind
      exact ⟨"Scenario " ++ name ++ " not found",
        test_context_run_none g name input hfind, "Scenario ", " not found", rfl⟩
  · intro s hfind
    exact test_context_run_some g name input s hfind

/-- Witness for C6: resolution success invokes the scenario, and on a
missing name the not-found error carries the name. -/
theorem test_context_run_spec_witness :
    inner_group.find_scenario "inner_scenario" = some inner_scenario
      ∧ TestContext.run ⟨inner_group⟩ "inner_scenario" none
          = (inner_scenario.run none).mapError RunError.scenarioRaised :=
  ⟨rfl, (test_context_run_spec inner_group "inner_scenario" none).2 inner_scenario rfl⟩

/-- C4 (counter-evidence): the join loop of string_utils.cpp appends the
hardcoded literal "." and never reads its delimiter argument, so
join(["1","2","3"], ";") evaluates to "1.2.3" and not to "1;2;3" as the
header documentation and the claim state. -/
theorem join_ignores_delimiter :
    string_utils.join ["1", "2", "3"] ";" = "1.2.3" ∧ "1.2.3" ≠ "1;2;3" := by
  exact ⟨rfl, by decide⟩

/-- C10 (counter-evidence): on the all-whitespace input "   " trim
computes left_pos = 3 (the end iterator, no non-space found) and
right_pos = 0 (rend.base(), the begin iterator), so the source constructs
std::string from the invalid iterator range (end, begin): undefined
behavior, modelled as none; this contradicts the claim that the
constructed range is always valid and that all-whitespace input yields "".
On the empty string and on a padded literal the function behaves as
documented. -/
theorem trim_invalid_range_on_whitespace :
    string_utils.findIfIdx (fun c => !string_utils.isspace c) ("   " : String).data = 3
      ∧ ("   " : String).data.length
          - string_utils.findIfIdx (fun c => !string_utils.isspace c)
              ("   " : String).data.reverse = 0
      ∧ string_utils.trim "   " = none
      ∧ string_utils.trim "" = some ""
      ∧ string_utils.trim "   123   " = some "123" := by
  exact ⟨rfl, rfl, rfl, rfl, rfl⟩

/-- C7: the four literal parses: the bare executable name yields the
all-default record; a dangling --name fails with the missing-name-value
error; --name and --input values are stored; an unknown token fails with
the unknown-argument error. -/
theorem parse_cli_arguments_cases :
    parse_cli_arguments ["exe"] = .ok ⟨⟨none, none⟩, false, false⟩
      ∧ parse_cli_arguments ["exe", "--name"] = .error "Failed to read name parameter"
      ∧ parse_cli_arguments ["exe", "--name", "foo", "--input", "ok"]
          = .ok ⟨⟨some "foo", some "ok"⟩, false, false⟩
      ∧ parse_cli_arguments ["exe", "--bogus"] = .error "Unknown argument provided" := by
  exact ⟨rfl, rfl, rfl, rfl⟩

/-- C5: dispatch priority of run_cli_app on a successfully parsed argument
set, in this exact order: help (everything else ignored), then list, then
the missing-name and empty-name failures, and finally delegation to
TestContext::run with the name and optional input, whose result (success
or error) is taken over unchanged. -/
theorem run_cli_app_dispatch (raw : List String) (ctx : TestContext)
    (args : CliArguments) (hparse : parse_cli_arguments raw = .ok args) :
    (args.help = true → run_cli_app raw ctx = .ok .helpShown)
      ∧ (args.help = false → args.list_scenarios = true →
          run_cli_app raw ctx = .ok (.scenariosListed ctx.list_scenarios))
      ∧ (args.help = false → args.list_scenarios = false →
          args.scenario_arguments.name = none →
          run_cli_app raw ctx = .error (.cliError "Test scenario name must be provided"))
      ∧ (args.help = false → args.list_scenarios = false →
          args.scenario_arguments.name = some "" →
          run_cli_app raw ctx = .error (.cliError "Test scenario name must not be empty"))
      ∧ (∀ n, args.help = false → args.list_scenarios = false →
          args.scenario_arguments.name = some n → n ≠ "" →
          (∀ u, ctx.run n args.scenario_arguments.input = .ok u →
              run_cli_app raw ctx = .ok .scenarioRan)
            ∧ (∀ e, ctx.run n args.scenario_arguments.input = .error e →
              run_cli_app raw ctx = .error (.contextError e))) := by
  have hbody : run_cli_app raw ctx =
      (if args.help then .ok .helpShown
       else if args.list_scenarios then .ok (.scenariosListed ctx.list_scenarios)
       else
         match args.scenario_arguments.name with
         | none => .error (.cliError "Test scenario name must be provided")
         | some n =>
           if n = "" then .error (.cliError "Test scenario name must not be empty")
           else
             match ctx.run n args.scenario_arguments.input with
             | .ok _ => .ok .scenarioRan
             | .error e => .error (.contextError e)) := by
    unfold run_cli_app
    rw [hparse]
  refine ⟨?_, ?_, ?_, ?_, ?_⟩
  · intro hh
    rw [hbody, if_pos hh]
  · intro hh hl
    rw [hbody, if_neg (by simp [hh]), if_pos hl]
  · intro hh hl hname
    rw [hbody, if_neg (by simp [hh]), if_neg (by simp [hl]), hname]
  · intro hh hl hname
    rw [hbody, if_neg (by simp [hh]), if_neg (by simp [hl]), hname]
    rfl
  · intro n hh hl hname hn
    constructor
    · intro u hrun
      rw [hbody, if_neg (by simp [hh]), if_neg (by simp [hl]), hname]
      show (if n = "" then Except.error (CliError.cliError "Test scenario name must not be empty")
        else
          match ctx.run n args.scenario_arguments.input with
          | .ok _ => Except.ok CliOutcome.scenarioRan
          | .error e => Except.error (CliError.contextError e)) = _
      rw [if_neg hn, hrun]
    · intro e hrun
      rw [hbody, if_neg (by simp [hh]), if_neg (by simp [hl]), hname]
      show (if n = "" then Except.error (CliError.cliError "Test scenario name must not be empty")
        else
          match ctx.run n args.scenario_arguments.input with
          | .ok _ => Except.ok CliOutcome.scenarioRan
          | .error e => Except.error (CliError.contextError e)) = _
      rw [if_neg hn, hrun]

/-- Witness for C5: help wins over everything else. -/
theorem run_cli_app_dispatch_witness :
    parse_cli_arguments ["exe", "--help", "--list-scenarios"]
        = .ok ⟨⟨none, none⟩, true, true⟩
      ∧ run_cli_app ["exe", "--help", "--list-scenarios"] ⟨outer_group⟩ = .ok .helpShown :=
  ⟨rfl,
    (run_cli_app_dispatch ["exe", "--help", "--list-scenarios"] ⟨outer_group⟩
      ⟨⟨none, none⟩, true, true⟩ rfl).1 rfl⟩

theorem parseArgumentsLoop_name_step (acc : CliArguments) (arg v : String)
    (l : List String) (h1 : arg = "-n" ∨ arg = "--name") :
    parseArgumentsLoop acc (arg :: v :: l)
      = parseArgumentsLoop
          ⟨⟨some v, acc.scenario_arguments.input⟩, acc.list_scenarios, acc.help⟩ l := by
  simp only [parseArgumentsLoop, if_pos h1]

theorem parseArgumentsLoop_input_step (acc : CliArguments) (arg v : String)
    (l : List String) (h1 : ¬(arg = "-n" ∨ arg = "--name"))
    (h2 : arg = "-i" ∨ arg = "--input") :
    parseArgumentsLoop acc (arg :: v :: l)
      = parseArgumentsLoop
          ⟨⟨acc.scenario_arguments.name, some v⟩, acc.list_scenarios, acc.help⟩ l := by
  simp only [parseArgumentsLoop, if_neg h1, if_pos h2]

theorem parseArgumentsLoop_list_step (acc : CliArguments) (arg : String)
    (l : List String) (h1 : ¬(arg = "-n" ∨ arg = "--name"))
    (h2 : ¬(arg = "-i" ∨ arg = "--input"))
    (h3 : arg = "-l" ∨ arg = "--list-scenarios") :
    parseArgumentsLoop acc (arg :: l)
      = parseArgumentsLoop ⟨acc.scenario_arguments, true, acc.help⟩ l := by
  rw [parseArgumentsLoop.eq_def]
  simp only [if_neg h1, if_neg h2, if_pos h3]

theorem parseArgumentsLoop_help_step (acc : CliArguments) (arg : String)
    (l : List String) (h1 : ¬(arg = "-n" ∨ arg = "--name"))
    (h2 : ¬(arg = "-i" ∨ arg = "--input"))
    (h3 : ¬(arg = "-l" ∨ arg = "--list-scenarios"))
    (h4 : arg = "-h" ∨ arg = "--help") :
    parseArgumentsLoop acc (arg :: l)
      = parseArgumentsLoop ⟨acc.scenario_arguments, acc.list_scenarios, true⟩ l := by
  rw [parseArgumentsLoop.eq_def]
  simp only [if_neg h1, if_neg h2, if_neg h3, if_pos h4]

/-- A successfully consumed token list composes: appending further tokens
continues the loop from the parsed state. -/
theorem parseArgumentsLoop_append_of_ok : ∀ (n : Nat) (ts : List String),
    ts.length ≤ n → ∀ (acc r : CliArguments),
    parseArgumentsLoop acc ts = .ok r →
    ∀ more, parseArgumentsLoop acc (ts ++ more) = parseArgumentsLoop r more := by
  intro n
  induction n with
  | zero =>
    intro ts hts acc r h more
    have hnil : ts = [] := List.length_eq_zero.mp (Nat.le_zero.mp hts)
    subst hnil
    have h2 : Except.ok (ε := String) acc = .ok r := h
    injection h2 with h3
    subst h3
    rfl
  | succ n ih =>
    intro ts hts acc r h more
    cases ts with
    | nil =>
      have h2 : Except.ok (ε := String) acc = .ok r := h
      injection h2 with h3
      subst h3
      rfl
    | cons arg rest =>
      simp only [List.length_cons] at hts
      by_cases h1 : arg = "-n" ∨ arg = "--name"
      · cases rest with
        | nil =>
          have h2 : Except.error (α := CliArguments) "Failed to read name parameter"
              = .ok r := by
            rw [← h]
            simp only [parseArgumentsLoop, if_pos h1]
          exact Except.noConfusion h2
        | cons v rest2 =>
          rw [parseArgumentsLoop_name_step acc arg v rest2 h1] at h
          show parseArgumentsLoop acc ((arg :: v :: rest2) ++ more) = _
          rw [List.cons_append, List.cons_append,
            parseArgumentsLoop_name_step _ arg v (rest2 ++ more) h1]
          exact ih rest2 (by simp at hts; omega) _ r h more
      · by_cases h2 : arg = "-i" ∨ arg = "--input"
        · cases rest with
          | nil =>
            have h5 : Except.error (α := CliArguments) "Failed to read input parameter"
                = .ok r := by
              rw [← h]
              simp only [parseArgumentsLoop, if_neg h1, if_pos h2]
            exact Except.noConfusion h5
          | cons v rest2 =>
            rw [parseArgumentsLoop_input_step acc arg v rest2 h1 h2] at h
            show parseArgumentsLoop acc ((arg :: v :: rest2) ++ more) = _
            rw [List.cons_append, List.cons_append,
              parseArgumentsLoop_input_step _ arg v (rest2 ++ more) h1 h2]
            exact ih rest2 (by simp at hts; omega) _ r h more
        · by_cases h3 : arg = "-l" ∨ arg = "--list-scenarios"
          · rw [parseArgumentsLoop_list_step acc arg rest h1 h2 h3] at h
            show parseArgumentsLoop acc ((arg :: rest) ++ more) = _
            rw [List.cons_append, parseArgumentsLoop_list_step _ arg (rest ++ more) h1 h2 h3]
            exact ih rest (by omega) _ r h more
          · by_cases h4 : arg = "-h" ∨ arg = "--help"
            · rw [parseArgumentsLoop_help_step acc arg rest h1 h2 h3 h4] at h
              show parseArgumentsLoop acc ((arg :: rest) ++ more) = _
              rw [List.cons_append,
                parseArgumentsLoop_help_step _ arg (rest ++ more) h1 h2 h3 h4]
              exact ih rest (by omega) _ r h more
            · have h5 : Except.error (α := CliArguments) "Unknown argument provided"
                  = .ok r := by
                rw [← h, parseArgumentsLoop.eq_def]
                simp only [if_neg h1, if_neg h2, if_neg h3, if_neg h4]
              exact Except.noConfusion h5

/-- C8: on a successfully parsed argument list, a repeated --name or
--input stores the value of the last occurrence (sequential overwrite of
whatever was parsed before, no merge), and repeating --help or
--list-scenarios yields exactly the result of giving the flag once. -/
theorem parse_cli_arguments_last_wins (exe : String) (ts : List String)
    (r : CliArguments) (h : parse_cli_arguments (exe :: ts) = .ok r) :
    (∀ v, parse_cli_arguments (exe :: (ts ++ ["--name", v]))
        = .ok ⟨⟨some v, r.scenario_arguments.input⟩, r.list_scenarios, r.help⟩)
      ∧ (∀ v, parse_cli_arguments (exe :: (ts ++ ["--input", v]))
          = .ok ⟨⟨r.scenario_arguments.name, some v⟩, r.list_scenarios, r.help⟩)
      ∧ parse_cli_arguments (exe :: (ts ++ ["--help"]))
          = .ok ⟨r.scenario_arguments, r.list_scenarios, true⟩
      ∧ parse_cli_arguments (exe :: (ts ++ ["--list-scenarios"]))
          = .ok ⟨r.scenario_arguments, true, r.help⟩
      ∧ parse_cli_arguments (exe :: (ts ++ ["--help", "--help"]))
          = parse_cli_arguments (exe :: (ts ++ ["--help"]))
      ∧ parse_cli_arguments (exe :: (ts ++ ["--list-scenarios", "--list-scenarios"]))
          = parse_cli_arguments (exe :: (ts ++ ["--list-scenarios"])) := by
  have hloop : parseArgumentsLoop ⟨⟨none, none⟩, false, false⟩ ts = .ok r := h
  have happ := parseArgumentsLoop_append_of_ok ts.length ts (Nat.le_refl _) _ r hloop
  refine ⟨?_, ?_, ?_, ?_, ?_, ?_⟩
  · intro v
    show parseArgumentsLoop ⟨⟨none, none⟩, false, false⟩ (ts ++ ["--name", v]) = _
    rw [happ ["--name", v]]
    rfl
  · intro v
    show parseArgumentsLoop ⟨⟨none, none⟩, false, false⟩ (ts ++ ["--input", v]) = _
    rw [happ ["--input", v]]
    rfl
  · show parseArgumentsLoop ⟨⟨none, none⟩, false, false⟩ (ts ++ ["--help"]) = _
    rw [happ ["--help"]]
    rfl
  · show parseArgumentsLoop ⟨⟨none, none⟩, false, false⟩ (ts ++ ["--list-scenarios"]) = _
    rw [happ ["--list-scenarios"]]
    rfl
  · show parseArgumentsLoop ⟨⟨none, none⟩, false, false⟩ (ts ++ ["--help", "--help"])
      = parseArgumentsLoop ⟨⟨none, none⟩, false, false⟩ (ts ++ ["--help"])
    rw [happ ["--help", "--help"], happ ["--help"]]
    rfl
  · show parseArgumentsLoop ⟨⟨none, none⟩, false, false⟩
        (ts ++ ["--list-scenarios", "--list-scenarios"])
      = parseArgumentsLoop ⟨⟨none, none⟩, false, false⟩ (ts ++ ["--list-scenarios"])
    rw [happ ["--list-scenarios", "--list-scenarios"], happ ["--list-scenarios"]]
    rfl

/-- Witness for C8: the second --name wins over the first. -/
theorem parse_cli_arguments_last_wins_witness :
    parse_cli_arguments ["exe", "--name", "a"] = .ok ⟨⟨some "a", none⟩, false, false⟩
      ∧ parse_cli_arguments ["exe", "--name", "a", "--name", "b"]
          = .ok ⟨⟨some "b", none⟩, false, false⟩ :=
  ⟨rfl,
    (parse_cli_arguments_last_wins "exe" ["--name", "a"]
      ⟨⟨some "a", none⟩, false, false⟩ rfl).1 "b"⟩
